/-
Verification of the delta-bot signal detection and sizing engine.

This file shallowly embeds the pure computational core of `src/bot.py`
into Lean 4. Python floats are modelled as rationals (ℚ); Python lists as
`List ℚ`; the `None` padding used inside indicator series as `Option ℚ`;
and functions that can raise an exception on some inputs return `Option`
(with `none` standing for the raised exception). Each definition keeps
the name of the Python function it translates.
-/
import Mathlib

namespace DeltaBot

/-- Direction of a trend, the Python strings "bull" / "bear". -/
inductive Dir where
  | bull
  | bear
deriving DecidableEq

/-- Order side, the Python strings "buy" / "sell". -/
inductive Side where
  | buy
  | sell
deriving DecidableEq

/-- Python `RISK_USD = 0.7`. -/
def RISK_USD : ℚ := 7/10

/-- Python `LEVERAGE = 100`. -/
def LEVERAGE : ℚ := 100

/-- Python `MIN_TP_USD = 1.0`. -/
def MIN_TP_USD : ℚ := 1

/-- Python `MAX_NOTIONAL_BUF = 0.95`. -/
def MAX_NOTIONAL_BUF : ℚ := 19/20

/-- Python `ATR_ENTRY_MULT = 0.5`. -/
def ATR_ENTRY_MULT : ℚ := 1/2

/-- Python `ATR_SL_MULT = 1.0`. -/
def ATR_SL_MULT : ℚ := 1

/-- Python `TP_RR = 2.0`. -/
def TP_RR : ℚ := 2

/-- The five parallel output lists of `parse_candles`. -/
structure Candles where
  o : List ℚ
  h : List ℚ
  l : List ℚ
  c : List ℚ
  v : List ℚ
deriving DecidableEq

/-- A raw bar record handed to `parse_candles`: either a positional list,
a field-named dict, or something else (skipped by the isinstance checks).
In `rlist`, element `i` is `some q` when `float(x[i])` would succeed with
value `q` and `none` when it would raise; an index past the end of the
list raises (IndexError), which `floatAt` folds into the same `none`.
In `rdict`, each required field is `some q` when `float(x[k])` succeeds
and `none` when the key is missing or the value is non-numeric; the
volume field is `none` when the key is absent (Python then uses the
default `0.0`), `some none` when present but non-numeric, and
`some (some q)` when present and numeric. -/
inductive RawRec where
  | rlist (xs : List (Option ℚ))
  | rdict (op hi lo cl : Option ℚ) (vol : Option (Option ℚ))
  | rother

/-- Python `float(x[i])` on a positional record: `none` models the
exception (IndexError or ValueError). -/
def floatAt (xs : List (Option ℚ)) (i : ℕ) : Option ℚ :=
  (xs.get? i).bind id

/-- One iteration of the `for x in raw` loop of `parse_candles`. The
appends happen sequentially, and an exception aborts the iteration
mid-way (caught by the `except: continue`), leaving the earlier appends
of the same record in place — exactly as in the Python. -/
def parse_step (st : Candles) (r : RawRec) : Candles :=
  match r with
  | RawRec.rlist xs =>
    match floatAt xs 1 with
    | none => st
    | some ov =>
      let st1 := { st with o := st.o ++ [ov] }
      match floatAt xs 2 with
      | none => st1
      | some hv =>
        let st2 := { st1 with h := st1.h ++ [hv] }
        match floatAt xs 3 with
        | none => st2
        | some lv =>
          let st3 := { st2 with l := st2.l ++ [lv] }
          match floatAt xs 4 with
          | none => st3
          | some cv =>
            let st4 := { st3 with c := st3.c ++ [cv] }
            if 5 < xs.length then
              match floatAt xs 5 with
              | none => st4
              | some vv => { st4 with v := st4.v ++ [vv] }
            else { st4 with v := st4.v ++ [0] }
  | RawRec.rdict op hi lo cl vol =>
    match op with
    | none => st
    | some ov =>
      let st1 := { st with o := st.o ++ [ov] }
      match hi with
      | none => st1
      | some hv =>
        let st2 := { st1 with h := st1.h ++ [hv] }
        match lo with
        | none => st2
        | some lv =>
          let st3 := { st2 with l := st2.l ++ [lv] }
          match cl with
          | none => st3
          | some cv =>
            let st4 := { st3 with c := st3.c ++ [cv] }
            match vol with
            | none => { st4 with v := st4.v ++ [0] }
            | some none => st4
            | some (some vv) => { st4 with v := st4.v ++ [vv] }
  | RawRec.rother => st

/-- Python `parse_candles(raw)`. -/
def parse_candles (raw : List RawRec) : Candles :=
  raw.foldl parse_step ⟨[], [], [], [], []⟩

/-- The `for v in vals[period:]` loop of `ema_list`: successive EMA
values after the seed, each `prev = (v - prev)*k + prev`. -/
def emaScan (k : ℚ) : ℚ → List ℚ → List ℚ
  | _, [] => []
  | prev, v :: vs => ((v - prev) * k + prev) :: emaScan k ((v - prev) * k + prev) vs

/-- Python `ema_list(vals, period)`: `[]` when fewer than `period`
values; otherwise `period - 1` leading `None`s, the SMA seed
(the simple average of the first `period` values), then the recurrence
values with `k = 2/(period+1)`. -/
def ema_list (vals : List ℚ) (period : ℕ) : List (Option ℚ) :=
  if vals.length < period then []
  else
    List.replicate (period - 1) none ++
      (some ((vals.take period).sum / period) ::
        (emaScan (2 / (period + 1)) ((vals.take period).sum / period)
          (vals.drop period)).map some)

/-- The loop body of `true_range`, carrying `prev` (the previous close,
`None` on the first iteration). The loop runs over `range(len(c))`;
the recursion consumes the three lists in step. -/
def trGo : Option ℚ → List ℚ → List ℚ → List ℚ → List ℚ
  | prev, x :: hs, y :: ls, z :: cs =>
    (match prev with
      | none => x - y
      | some p => max (x - y) (max |x - p| |y - p|)) :: trGo (some z) hs ls cs
  | _, _, _, _ => []

/-- Python `true_range(h, l, c)`. -/
def true_range (h l c : List ℚ) : List ℚ :=
  trGo none h l c

/-- Python `atr_list(h, l, c, period)`. -/
def atr_list (h l c : List ℚ) (period : ℕ) : List (Option ℚ) :=
  ema_list (true_range h l c) period

/-- Python `max(xs)` on a list: raises (here `none`) on an empty list. -/
def pyMax : List ℚ → Option ℚ
  | [] => none
  | x :: xs => some (xs.foldl max x)

/-- Python `min(xs)` on a list: raises (here `none`) on an empty list. -/
def pyMin : List ℚ → Option ℚ
  | [] => none
  | x :: xs => some (xs.foldl min x)

/-- Python `xs[-k:]`: the last `k` elements for `k > 0` (all of them
when the list is shorter), and the whole list for `k = 0`. -/
def pyTail (xs : List ℚ) (k : ℕ) : List ℚ :=
  if k = 0 then xs else xs.drop (xs.length - k)

/-- Python `recent_swings(h, l, lookback)`: `max(h[-lookback:])` and
`min(l[-lookback:])`; `none` models the ValueError raised by `max`/`min`
on an empty slice. -/
def recent_swings (h l : List ℚ) (lookback : ℕ) : Option (ℚ × ℚ) :=
  match pyMax (pyTail h lookback), pyMin (pyTail l lookback) with
  | some a, some b => some (a, b)
  | _, _ => none

/-- Python `bullish_bos(o, h, l, c)`: `some b` is a normal return of
`b`, `none` models an exception raised on the way (empty swing slice or
empty `o`/`h`/`l` list). -/
def bullish_bos (o h l c : List ℚ) : Option Bool :=
  if c.length < 25 then some false
  else
    match recent_swings h l 20, o.getLast?, h.getLast?, l.getLast?, c.getLast? with
    | some (swing_hi, _), some last_o, some last_h, some last_l, some last_c =>
      let rng := max (1/1000000000) (last_h - last_l)
      let body := |last_c - last_o|
      some (decide (swing_hi < last_c) && decide (body / rng ≥ 6/10))
    | _, _, _, _, _ => none

/-- Python `bearish_bos(o, h, l, c)`, same conventions as `bullish_bos`. -/
def bearish_bos (o h l c : List ℚ) : Option Bool :=
  if c.length < 25 then some false
  else
    match recent_swings h l 20, o.getLast?, h.getLast?, l.getLast?, c.getLast? with
    | some (_, swing_lo), some last_o, some last_h, some last_l, some last_c =>
      let rng := max (1/1000000000) (last_h - last_l)
      let body := |last_c - last_o|
      some (decide (last_c < swing_lo) && decide (body / rng ≥ 6/10))
    | _, _, _, _, _ => none

/-- The pure core of Python `tf_ema_dir`: given the parsed closes of one
timeframe and the two EMA periods, `None` when either EMA list is empty
or its last entry is `None`, otherwise "bull" iff `e_fast[-1] > e_slow[-1]`
and "bear" otherwise. The network fetch wrapping it in the source is an
excluded collaborator. -/
def tf_ema_dir (c : List ℚ) (fast slow : ℕ) : Option Dir :=
  match (ema_list c fast).getLast?, (ema_list c slow).getLast? with
  | some (some f), some (some s) => some (if s < f then Dir.bull else Dir.bear)
  | _, _ => none

/-- The signal record built at the end of Python `detect_signal`
(the pure fields: symbol and the per-timeframe direction map are
identifiers carried along, not computed). -/
structure Signal where
  side : Side
  entry : ℚ
  sl : ℚ
  tp : ℚ
  atr : ℚ
  swing_high : ℚ
  swing_low : ℚ
deriving DecidableEq

/-- The pure core of Python `detect_signal` after all candle fetches:
given the already-determined master trend and the parsed 15m series,
the length gate, ATR gate, swing window, triggers and signal assembly.
`none` covers every no-signal return; the error paths that a malformed
series could raise in Python (empty lists feeding `recent_swings` or
`o[-1]`) are also folded into `none`. -/
def detect_core (master : Dir) (o h l c : List ℚ) : Option Signal :=
  if c.length < 50 then none
  else
    match (atr_list h l c 14).getLast? with
    | some (some atr) =>
      match recent_swings h l 20, c.getLast? with
      | some (swing_hi, swing_lo), some last_c =>
        let long_trig := decide (swing_hi + ATR_ENTRY_MULT * atr < last_c)
                          && (bullish_bos o h l c).getD false
        let short_trig := decide (last_c < swing_lo - ATR_ENTRY_MULT * atr)
                          && (bearish_bos o h l c).getD false
        match master with
        | Dir.bull =>
          if long_trig then
            let entry := last_c
            let sl := entry - ATR_SL_MULT * atr
            some ⟨Side.buy, entry, sl, entry + TP_RR * (entry - sl), atr, swing_hi, swing_lo⟩
          else none
        | Dir.bear =>
          if short_trig then
            let entry := last_c
            let sl := entry + ATR_SL_MULT * atr
            some ⟨Side.sell, entry, sl, entry - TP_RR * (sl - entry), atr, swing_hi, swing_lo⟩
          else none
      | _, _ => none
    | _ => none

/-- Python `compute_qty(entry, sl, balance_usd)`. -/
def compute_qty (entry sl balance_usd : ℚ) : ℚ :=
  let dist := |entry - sl|
  if dist ≤ 0 then 0
  else
    let qty := RISK_USD / dist
    let max_notional := balance_usd * LEVERAGE * MAX_NOTIONAL_BUF
    let notional := qty * entry
    let qty2 := if max_notional < notional then max_notional / entry else qty
    max 0 ((⌊qty2 * 100000⌋ : ℚ) / 100000)

/-- Python `ensure_min_tp(entry, tp, qty, side)`. -/
def ensure_min_tp (entry tp qty : ℚ) (side : Side) : ℚ :=
  if qty ≤ 0 then tp
  else if MIN_TP_USD ≤ |tp - entry| * qty then tp
  else
    let needed := MIN_TP_USD / qty
    if side = Side.buy then entry + needed else entry - needed

/-! ### Helper lemmas about Python `max`/`min` over lists -/

lemma le_foldl_max (xs : List ℚ) : ∀ init : ℚ, init ≤ xs.foldl max init := by
  induction xs with
  | nil => intro init; simp
  | cons y ys ih =>
    intro init
    calc init ≤ max init y := le_max_left _ _
    _ ≤ ys.foldl max (max init y) := ih _
    _ = (y :: ys).foldl max init := by simp

lemma le_foldl_max_of_mem (xs : List ℚ) :
    ∀ init a : ℚ, a ∈ xs → a ≤ xs.foldl max init := by
  induction xs with
  | nil => simp
  | cons y ys ih =>
    intro init a ha
    rcases List.mem_cons.mp ha with rfl | hmem
    · calc a ≤ max init a := le_max_right _ _
      _ ≤ ys.foldl max (max init a) := le_foldl_max _ _
      _ = (a :: ys).foldl max init := by simp
    · calc a ≤ ys.foldl max (max init y) := ih _ a hmem
      _ = (y :: ys).foldl max init := by simp

lemma foldl_max_mem (xs : List ℚ) :
    ∀ init : ℚ, xs.foldl max init = init ∨ xs.foldl max init ∈ xs := by
  induction xs with
  | nil => intro init; left; rfl
  | cons y ys ih =>
    intro init
    have hstep : (y :: ys).foldl max init = ys.foldl max (max init y) := by simp
    rcases ih (max init y) with h | h
    · rcases max_choice init y with h2 | h2
      · left; rw [hstep, h, h2]
      · right; rw [hstep, h, h2]; exact List.mem_cons_self _ _
    · right; rw [hstep]; exact List.mem_cons_of_mem _ h

lemma foldl_min_le (xs : List ℚ) : ∀ init : ℚ, xs.foldl min init ≤ init := by
  induction xs with
  | nil => intro init; simp
  | cons y ys ih =>
    intro init
    calc (y :: ys).foldl min init = ys.foldl min (min init y) := by simp
    _ ≤ min init y := ih _
    _ ≤ init := min_le_left _ _

lemma foldl_min_le_of_mem (xs : List ℚ) :
    ∀ init a : ℚ, a ∈ xs → xs.foldl min init ≤ a := by
  induction xs with
  | nil => simp
  | cons y ys ih =>
    intro init a ha
    rcases List.mem_cons.mp ha with rfl | hmem
    · calc (a :: ys).foldl min init = ys.foldl min (min init a) := by simp
      _ ≤ min init a := foldl_min_le _ _
      _ ≤ a := min_le_right _ _
    · calc (y :: ys).foldl min init = ys.foldl min (min init y) := by simp
      _ ≤ a := ih _ a hmem

lemma foldl_min_mem (xs : List ℚ) :
    ∀ init : ℚ, xs.foldl min init = init ∨ xs.foldl min init ∈ xs := by
  induction xs with
  | nil => intro init; left; rfl
  | cons y ys ih =>
    intro init
    have hstep : (y :: ys).foldl min init = ys.foldl min (min init y) := by simp
    rcases ih (min init y) with h | h
    · rcases min_choice init y with h2 | h2
      · left; rw [hstep, h, h2]
      · right; rw [hstep, h, h2]; exact List.mem_cons_self _ _
    · right; rw [hstep]; exact List.mem_cons_of_mem _ h

lemma pyMax_spec (xs : List ℚ) (m : ℚ) (hm : pyMax xs = some m) :
    m ∈ xs ∧ ∀ a ∈ xs, a ≤ m := by
  cases xs with
  | nil => simp [pyMax] at hm
  | cons x ys =>
    have h1 : m = ys.foldl max x := by simpa [pyMax] using hm.symm
    constructor
    · rcases foldl_max_mem ys x with h | h
      · rw [h1, h]; exact List.mem_cons_self _ _
      · rw [h1]; exact List.mem_cons_of_mem _ h
    · intro a ha
      rcases List.mem_cons.mp ha with rfl | hmem
      · rw [h1]; exact le_foldl_max _ _
      · rw [h1]; exact le_foldl_max_of_mem _ _ _ hmem

lemma pyMin_spec (xs : List ℚ) (m : ℚ) (hm : pyMin xs = some m) :
    m ∈ xs ∧ ∀ a ∈ xs, m ≤ a := by
  cases xs with
  | nil => simp [pyMin] at hm
  | cons x ys =>
    have h1 : m = ys.foldl min x := by simpa [pyMin] using hm.symm
    constructor
    · rcases foldl_min_mem ys x with h | h
      · rw [h1, h]; exact List.mem_cons_self _ _
      · rw [h1]; exact List.mem_cons_of_mem _ h
    · intro a ha
      rcases List.mem_cons.mp ha with rfl | hmem
      · rw [h1]; exact foldl_min_le _ _
      · rw [h1]; exact foldl_min_le_of_mem _ _ _ hmem

lemma pyMax_isSome (xs : List ℚ) (hx : xs ≠ []) : ∃ m, pyMax xs = some m := by
  cases xs with
  | nil => exact absurd rfl hx
  | cons x ys => exact ⟨ys.foldl max x, rfl⟩

lemma pyMin_isSome (xs : List ℚ) (hx : xs ≠ []) : ∃ m, pyMin xs = some m := by
  cases xs with
  | nil => exact absurd rfl hx
  | cons x ys => exact ⟨ys.foldl min x, rfl⟩

lemma pyTail_ne_nil (xs : List ℚ) (k : ℕ) (hx : xs ≠ []) : pyTail xs k ≠ [] := by
  unfold pyTail
  split
  · exact hx
  · have hlen : 0 < xs.length := List.length_pos.mpr hx
    have : (xs.drop (xs.length - k)).length = xs.length - (xs.length - k) :=
      List.length_drop _ _
    intro hnil
    rw [hnil] at this
    simp at this
    omega

lemma getLast_mem_pyTail (xs : List ℚ) (k : ℕ) (a : ℚ) (hk : 0 < k)
    (ha : xs.getLast? = some a) : a ∈ pyTail xs k := by
  rw [List.getLast?_eq_getElem?] at ha
  have hlt : xs.length - 1 < xs.length := (List.getElem?_eq_some.mp ha).1
  unfold pyTail
  rw [if_neg (Nat.pos_iff_ne_zero.mp hk)]
  by_cases hkn : k ≤ xs.length
  · have hidx : (xs.drop (xs.length - k))[k - 1]? = xs[(xs.length - k) + (k - 1)]? :=
      List.getElem?_drop _ _ _
    have harith : (xs.length - k) + (k - 1) = xs.length - 1 := by omega
    rw [harith, ha] at hidx
    exact List.getElem?_mem hidx
  · have : xs.length - k = 0 := by omega
    rw [this, List.drop_zero]
    exact List.getElem?_mem ha

lemma recent_swings_last (h l : List ℚ) (k : ℕ) (hk : 0 < k) (lh ll : ℚ)
    (hh : h.getLast? = some lh) (hl : l.getLast? = some ll) :
    ∃ shi slo, recent_swings h l k = some (shi, slo) ∧ lh ≤ shi ∧ slo ≤ ll := by
  have hne : h ≠ [] := by intro hnil; rw [hnil] at hh; simp at hh
  have lne : l ≠ [] := by intro hnil; rw [hnil] at hl; simp at hl
  obtain ⟨shi, hshi⟩ := pyMax_isSome (pyTail h k) (pyTail_ne_nil h k hne)
  obtain ⟨slo, hslo⟩ := pyMin_isSome (pyTail l k) (pyTail_ne_nil l k lne)
  refine ⟨shi, slo, ?_, ?_, ?_⟩
  · unfold recent_swings
    rw [hshi, hslo]
  · exact (pyMax_spec _ _ hshi).2 lh (getLast_mem_pyTail h k lh hk hh)
  · exact (pyMin_spec _ _ hslo).2 ll (getLast_mem_pyTail l k ll hk hl)

lemma pyMax_eq_of (xs : List ℚ) (m : ℚ) (hmem : m ∈ xs)
    (hub : ∀ a ∈ xs, a ≤ m) : pyMax xs = some m := by
  have hne : xs ≠ [] := List.ne_nil_of_mem hmem
  obtain ⟨m', hm'⟩ := pyMax_isSome xs hne
  obtain ⟨hmem', hub'⟩ := pyMax_spec xs m' hm'
  rw [hm']
  exact congrArg some (le_antisymm (hub m' hmem') (hub' m hmem))

lemma pyMin_eq_of (xs : List ℚ) (m : ℚ) (hmem : m ∈ xs)
    (hlb : ∀ a ∈ xs, m ≤ a) : pyMin xs = some m := by
  have hne : xs ≠ [] := List.ne_nil_of_mem hmem
  obtain ⟨m', hm'⟩ := pyMin_isSome xs hne
  obtain ⟨hmem', hlb'⟩ := pyMin_spec xs m' hm'
  rw [hm']
  exact congrArg some (le_antisymm (hlb' m hmem) (hlb m' hmem'))

lemma pyTail_eq_drop (xs : List ℚ) (k : ℕ) (hk : k ≠ 0) :
    pyTail xs k = xs.drop (xs.length - k) := by
  unfold pyTail
  rw [if_neg hk]

lemma pyMax_replicate (m : ℕ) (a : ℚ) (hm : m ≠ 0) :
    pyMax (List.replicate m a) = some a :=
  pyMax_eq_of _ _ (List.mem_replicate.mpr ⟨hm, rfl⟩)
    (fun _ hx => le_of_eq (List.eq_of_mem_replicate hx))

lemma pyMin_replicate (m : ℕ) (a : ℚ) (hm : m ≠ 0) :
    pyMin (List.replicate m a) = some a :=
  pyMin_eq_of _ _ (List.mem_replicate.mpr ⟨hm, rfl⟩)
    (fun _ hx => ge_of_eq (List.eq_of_mem_replicate hx))

lemma getLast?_replicate (n : ℕ) (x : ℚ) (hn : n ≠ 0) :
    (List.replicate n x).getLast? = some x := by
  rw [List.getLast?_eq_getElem?, List.length_replicate, List.getElem?_replicate,
    if_pos (by omega)]

lemma recent_swings_replicate (n k : ℕ) (a b : ℚ) (hn : n ≠ 0) (hk : k ≠ 0) :
    recent_swings (List.replicate n a) (List.replicate n b) k = some (a, b) := by
  have t1 : pyTail (List.replicate n a) k = List.replicate (n - (n - k)) a := by
    rw [pyTail_eq_drop _ _ hk, List.length_replicate, List.drop_replicate]
  have t2 : pyTail (List.replicate n b) k = List.replicate (n - (n - k)) b := by
    rw [pyTail_eq_drop _ _ hk, List.length_replicate, List.drop_replicate]
  have hm : n - (n - k) ≠ 0 := by omega
  unfold recent_swings
  rw [t1, t2, pyMax_replicate _ _ hm, pyMin_replicate _ _ hm]

lemma bullish_bos_eval (o h l c : List ℚ) (lo lh ll lc shi slo : ℚ)
    (hlen : ¬ c.length < 25)
    (hsw : recent_swings h l 20 = some (shi, slo))
    (ho : o.getLast? = some lo) (hh : h.getLast? = some lh)
    (hl : l.getLast? = some ll) (hc : c.getLast? = some lc) :
    bullish_bos o h l c =
      some (decide (shi < lc) &&
        decide (|lc - lo| / max (1/1000000000) (lh - ll) ≥ 6/10)) := by
  simp [bullish_bos, hlen, hsw, ho, hh, hl, hc]

lemma bearish_bos_eval (o h l c : List ℚ) (lo lh ll lc shi slo : ℚ)
    (hlen : ¬ c.length < 25)
    (hsw : recent_swings h l 20 = some (shi, slo))
    (ho : o.getLast? = some lo) (hh : h.getLast? = some lh)
    (hl : l.getLast? = some ll) (hc : c.getLast? = some lc) :
    bearish_bos o h l c =
      some (decide (lc < slo) &&
        decide (|lc - lo| / max (1/1000000000) (lh - ll) ≥ 6/10)) := by
  simp [bearish_bos, hlen, hsw, ho, hh, hl, hc]

/-! ### Claim C1 -/

/-- C1: for every bar series whose last bar is well-formed (its close is
between its low and its high), `bullish_bos` and `bearish_bos` both
return `False`, because the 20-bar swing window includes the last bar
itself, so the swing high is at least the last high and the swing low is
at most the last low; consequently `detect_signal`'s long and short
triggers are both false and no Signal is ever emitted, whatever the
master trend. -/
theorem C1_no_signal_on_wellformed_bars (o h l c : List ℚ) (lo lh ll lc : ℚ)
    (ho : o.getLast? = some lo) (hh : h.getLast? = some lh)
    (hl : l.getLast? = some ll) (hc : c.getLast? = some lc)
    (hwf1 : ll ≤ lc) (hwf2 : lc ≤ lh) :
    bullish_bos o h l c = some false ∧ bearish_bos o h l c = some false ∧
      ∀ master, detect_core master o h l c = none := by
  obtain ⟨shi, slo, hsw, hshi, hslo⟩ :=
    recent_swings_last h l 20 (by norm_num) lh ll hh hl
  have hbull : bullish_bos o h l c = some false := by
    by_cases hlen : c.length < 25
    · simp [bullish_bos, hlen]
    · have hnotlt : ¬ (shi < lc) := not_lt.mpr (le_trans hwf2 hshi)
      simp [bullish_bos, hlen, hsw, ho, hh, hl, hc, hnotlt]
  have hbear : bearish_bos o h l c = some false := by
    by_cases hlen : c.length < 25
    · simp [bearish_bos, hlen]
    · have hnotlt : ¬ (lc < slo) := not_lt.mpr (le_trans hslo hwf1)
      simp [bearish_bos, hlen, hsw, ho, hh, hl, hc, hnotlt]
  refine ⟨hbull, hbear, ?_⟩
  intro master
  by_cases h50 : c.length < 50
  · simp [detect_core, h50]
  · cases hat : (atr_list h l c 14).getLast? with
    | none => simp [detect_core, h50, hat]
    | some oatr =>
      cases oatr with
      | none => simp [detect_core, h50, hat]
      | some atr =>
        cases master <;>
          simp [detect_core, h50, hat, hsw, hc, hbull, hbear, Bool.and_false]

/-- Witness for C1 on a concrete one-bar series. -/
theorem C1_no_signal_on_wellformed_bars_witness :
    bullish_bos [1] [2] [0] [1] = some false ∧
      bearish_bos [1] [2] [0] [1] = some false ∧
      detect_core Dir.bull [1] [2] [0] [1] = none ∧
      detect_core Dir.bear [1] [2] [0] [1] = none := by
  obtain ⟨h1, h2, h3⟩ :=
    C1_no_signal_on_wellformed_bars [1] [2] [0] [1] 1 2 0 1
      rfl rfl rfl rfl (by norm_num) (by norm_num)
  exact ⟨h1, h2, h3 Dir.bull, h3 Dir.bear⟩

/-! ### Claim C2 -/

/-- C2: evaluation of `parse_candles` at the failing input: a single
positional record `[0, 1.0]` whose open parses but whose high is missing.
The open `1.0` is appended before the IndexError on the high is raised
and caught, so the returned lists have unequal lengths (`o` has one
element, the other four are empty) — contradicting the specified
equal-length invariant. -/
theorem C2_parse_candles_partial_record :
    parse_candles [RawRec.rlist [some 0, some 1]] =
      ⟨[1], [], [], [], []⟩ ∧
    (parse_candles [RawRec.rlist [some 0, some 1]]).o.length ≠
      (parse_candles [RawRec.rlist [some 0, some 1]]).h.length := by
  constructor
  · rfl
  · decide

/-! ### Claim C4 -/

/-- C4 counterexample: a one-bar series is shorter than the 20-bar
lookback, yet `recent_swings` returns the normal value `(5, 3)`
(the max/min over all available bars) rather than being undefined. -/
theorem C4_short_series_counterexample :
    ([5] : List ℚ).length < 20 ∧ recent_swings [5] [3] 20 = some (5, 3) := by
  constructor
  · decide
  · decide

/-- C4 (amended): with `0 < lookback ≤ length`, `recent_swings` returns
exactly the pair (maximum of the last `lookback` highs, minimum of the
last `lookback` lows); for any nonempty highs and lows it still returns
a normal value (over all available bars when shorter than `lookback`);
it is undefined (raises) only when the highs or the lows are empty. -/
theorem C4_swing_window_amended (h l : List ℚ) (k : ℕ) :
    (0 < k → k ≤ h.length → k ≤ l.length →
      ∃ hi lo, recent_swings h l k = some (hi, lo) ∧
        hi ∈ h.drop (h.length - k) ∧ (∀ x ∈ h.drop (h.length - k), x ≤ hi) ∧
        lo ∈ l.drop (l.length - k) ∧ (∀ x ∈ l.drop (l.length - k), lo ≤ x)) ∧
    (h ≠ [] → l ≠ [] → ∃ hi lo, recent_swings h l k = some (hi, lo)) ∧
    (h = [] → recent_swings h l k = none) ∧
    (l = [] → recent_swings h l k = none) := by
  refine ⟨?_, ?_, ?_, ?_⟩
  · intro hk hkh hkl
    have hne : h ≠ [] := by
      intro hnil; rw [hnil] at hkh; simp at hkh; omega
    have lne : l ≠ [] := by
      intro hnil; rw [hnil] at hkl; simp at hkl; omega
    obtain ⟨hi, hhi⟩ := pyMax_isSome (pyTail h k) (pyTail_ne_nil h k hne)
    obtain ⟨lo, hlo⟩ := pyMin_isSome (pyTail l k) (pyTail_ne_nil l k lne)
    have e1 : pyTail h k = h.drop (h.length - k) :=
      pyTail_eq_drop h k (Nat.pos_iff_ne_zero.mp hk)
    have e2 : pyTail l k = l.drop (l.length - k) :=
      pyTail_eq_drop l k (Nat.pos_iff_ne_zero.mp hk)
    obtain ⟨hmem, hbound⟩ := pyMax_spec _ _ hhi
    obtain ⟨lmem, lbound⟩ := pyMin_spec _ _ hlo
    rw [e1] at hmem hbound
    rw [e2] at lmem lbound
    refine ⟨hi, lo, ?_, hmem, hbound, lmem, lbound⟩
    unfold recent_swings
    rw [hhi, hlo]
  · intro hne lne
    obtain ⟨hi, hhi⟩ := pyMax_isSome (pyTail h k) (pyTail_ne_nil h k hne)
    obtain ⟨lo, hlo⟩ := pyMin_isSome (pyTail l k) (pyTail_ne_nil l k lne)
    refine ⟨hi, lo, ?_⟩
    unfold recent_swings
    rw [hhi, hlo]
  · intro hnil
    subst hnil
    have : pyTail ([] : List ℚ) k = [] := by unfold pyTail; split <;> simp
    unfold recent_swings
    rw [this]
    rfl
  · intro hnil
    subst hnil
    have : pyTail ([] : List ℚ) k = [] := by unfold pyTail; split <;> simp
    unfold recent_swings
    rw [this]
    cases pyMax (pyTail h k) <;> rfl

/-- Witness for C4 (amended) at a concrete input. -/
theorem C4_swing_window_amended_witness :
    ∃ hi lo, recent_swings [1, 5, 2] [3, 0, 4] 2 = some (hi, lo) ∧
      hi ∈ ([1, 5, 2] : List ℚ).drop (([1, 5, 2] : List ℚ).length - 2) ∧
      (∀ x ∈ ([1, 5, 2] : List ℚ).drop (([1, 5, 2] : List ℚ).length - 2), x ≤ hi) ∧
      lo ∈ ([3, 0, 4] : List ℚ).drop (([3, 0, 4] : List ℚ).length - 2) ∧
      (∀ x ∈ ([3, 0, 4] : List ℚ).drop (([3, 0, 4] : List ℚ).length - 2), lo ≤ x) :=
  (C4_swing_window_amended [1, 5, 2] [3, 0, 4] 2).1
    (by norm_num) (by norm_num) (by norm_num)

/-! ### Claim C10 -/

lemma bullish_bos_true_elim (o h l c : List ℚ) (shi slo : ℚ)
    (hsw : recent_swings h l 20 = some (shi, slo))
    (hb : bullish_bos o h l c = some true) :
    ∃ lc, c.getLast? = some lc ∧ shi < lc := by
  by_cases hlen : c.length < 25
  · simp [bullish_bos, hlen] at hb
  · cases ho : o.getLast? with
    | none => simp [bullish_bos, hlen, hsw, ho] at hb
    | some lo =>
      cases hh : h.getLast? with
      | none => simp [bullish_bos, hlen, hsw, ho, hh] at hb
      | some lh =>
        cases hl : l.getLast? with
        | none => simp [bullish_bos, hlen, hsw, ho, hh, hl] at hb
        | some ll =>
          cases hc : c.getLast? with
          | none => simp [bullish_bos, hlen, hsw, ho, hh, hl, hc] at hb
          | some lc =>
            refine ⟨lc, rfl, ?_⟩
            simp [bullish_bos, hlen, hsw, ho, hh, hl, hc] at hb
            exact hb.1

lemma bearish_bos_true_elim (o h l c : List ℚ) (shi slo : ℚ)
    (hsw : recent_swings h l 20 = some (shi, slo))
    (hb : bearish_bos o h l c = some true) :
    ∃ lc, c.getLast? = some lc ∧ lc < slo := by
  by_cases hlen : c.length < 25
  · simp [bearish_bos, hlen] at hb
  · cases ho : o.getLast? with
    | none => simp [bearish_bos, hlen, hsw, ho] at hb
    | some lo =>
      cases hh : h.getLast? with
      | none => simp [bearish_bos, hlen, hsw, ho, hh] at hb
      | some lh =>
        cases hl : l.getLast? with
        | none => simp [bearish_bos, hlen, hsw, ho, hh, hl] at hb
        | some ll =>
          cases hc : c.getLast? with
          | none => simp [bearish_bos, hlen, hsw, ho, hh, hl, hc] at hb
          | some lc =>
            refine ⟨lc, rfl, ?_⟩
            simp [bearish_bos, hlen, hsw, ho, hh, hl, hc] at hb
            exact hb.1

/-- C10 counterexample: on a 25-bar series of malformed bars whose highs
(all 0) sit below their lows (all 10), the swing high (0) is below the
swing low (10) and a close of 5 breaks both at once: `bullish_bos` and
`bearish_bos` are BOTH `True` on the same bar. -/
theorem C10_both_bos_true_counterexample :
    bullish_bos (List.replicate 25 4) (List.replicate 25 0)
        (List.replicate 25 10) (List.replicate 25 5) = some true ∧
      bearish_bos (List.replicate 25 4) (List.replicate 25 0)
        (List.replicate 25 10) (List.replicate 25 5) = some true := by
  have hlen : ¬ (List.replicate 25 (5 : ℚ)).length < 25 := by
    rw [List.length_replicate]
    omega
  have hsw : recent_swings (List.replicate 25 (0 : ℚ)) (List.replicate 25 (10 : ℚ)) 20 =
      some (0, 10) :=
    recent_swings_replicate 25 20 0 10 (by omega) (by omega)
  have e1 : max ((1 : ℚ)/1000000000) ((0 : ℚ) - 10) = 1/1000000000 :=
    max_eq_left (by norm_num)
  have e2 : |(5 : ℚ) - 4| = 1 := by
    rw [abs_of_nonneg (by norm_num : (0 : ℚ) ≤ 5 - 4)]
    norm_num
  constructor
  · rw [bullish_bos_eval _ _ _ _ 4 0 10 5 0 10 hlen hsw
      (getLast?_replicate 25 4 (by omega)) (getLast?_replicate 25 0 (by omega))
      (getLast?_replicate 25 10 (by omega)) (getLast?_replicate 25 5 (by omega))]
    rw [e1, e2]
    norm_num
  · rw [bearish_bos_eval _ _ _ _ 4 0 10 5 0 10 hlen hsw
      (getLast?_replicate 25 4 (by omega)) (getLast?_replicate 25 0 (by omega))
      (getLast?_replicate 25 10 (by omega)) (getLast?_replicate 25 5 (by omega))]
    rw [e1, e2]
    norm_num

/-- C10 (amended): bullish and bearish BOS are mutually exclusive on the
same bar given the same swing window, provided the swing high is at
least the swing low (as always holds when any bar in the window has
high ≥ low). -/
theorem C10_bos_mutually_exclusive (o h l c : List ℚ) (shi slo : ℚ)
    (hsw : recent_swings h l 20 = some (shi, slo)) (hord : slo ≤ shi) :
    ¬(bullish_bos o h l c = some true ∧ bearish_bos o h l c = some true) := by
  rintro ⟨hb, hs⟩
  obtain ⟨lc1, hc1, hlt1⟩ := bullish_bos_true_elim o h l c shi slo hsw hb
  obtain ⟨lc2, hc2, hlt2⟩ := bearish_bos_true_elim o h l c shi slo hsw hs
  rw [hc1] at hc2
  have : lc1 = lc2 := by injection hc2
  subst this
  linarith

/-- Witness for C10 (amended) on a concrete well-formed series. -/
theorem C10_bos_mutually_exclusive_witness :
    recent_swings (List.replicate 25 (2 : ℚ)) (List.replicate 25 (0 : ℚ)) 20 =
        some (2, 0) ∧
      ¬(bullish_bos (List.replicate 25 (1 : ℚ)) (List.replicate 25 (2 : ℚ))
            (List.replicate 25 (0 : ℚ)) (List.replicate 25 (1 : ℚ)) = some true ∧
          bearish_bos (List.replicate 25 (1 : ℚ)) (List.replicate 25 (2 : ℚ))
            (List.replicate 25 (0 : ℚ)) (List.replicate 25 (1 : ℚ)) = some true) :=
  ⟨recent_swings_replicate 25 20 2 0 (by omega) (by omega),
    C10_bos_mutually_exclusive _ _ _ _ 2 0
      (recent_swings_replicate 25 20 2 0 (by omega) (by omega)) (by norm_num)⟩

/-! ### Claim C9 -/

lemma trGo_length : ∀ (c h l : List ℚ) (prev : Option ℚ),
    (trGo prev h l c).length = min (min h.length l.length) c.length := by
  intro c
  induction c with
  | nil =>
    intro h l prev
    cases h <;> cases l <;> simp [trGo]
  | cons z cs ih =>
    intro h l prev
    cases h with
    | nil => simp [trGo]
    | cons x hs =>
      cases l with
      | nil => simp [trGo]
      | cons y ls =>
        have := ih hs ls (some z)
        simp only [trGo, List.length_cons, this]
        omega

lemma trGo_nonneg_some : ∀ (i : ℕ) (h l c : List ℚ) (p : ℚ) (t : ℚ),
    (trGo (some p) h l c)[i]? = some t → 0 ≤ t := by
  intro i
  induction i with
  | zero =>
    intro h l c p t ht
    cases h with
    | nil => simp [trGo] at ht
    | cons x hs =>
      cases l with
      | nil => simp [trGo] at ht
      | cons y ls =>
        cases c with
        | nil => simp [trGo] at ht
        | cons z cs =>
          simp only [trGo, List.getElem?_cons_zero, Option.some_inj] at ht
          subst ht
          calc (0 : ℚ) ≤ |x - p| := abs_nonneg _
          _ ≤ max |x - p| |y - p| := le_max_left _ _
          _ ≤ max (x - y) (max |x - p| |y - p|) := le_max_right _ _
  | succ j ih =>
    intro h l c p t ht
    cases h with
    | nil => simp [trGo] at ht
    | cons x hs =>
      cases l with
      | nil => simp [trGo] at ht
      | cons y ls =>
        cases c with
        | nil => simp [trGo] at ht
        | cons z cs =>
          simp only [trGo, List.getElem?_cons_succ] at ht
          exact ih hs ls cs z t ht

lemma trGo_get_succ : ∀ (i : ℕ) (h l c : List ℚ) (prev : Option ℚ) (hi li pc : ℚ),
    h[i+1]? = some hi → l[i+1]? = some li → (c)[i]? = some pc → i + 1 < c.length →
    (trGo prev h l c)[i+1]? = some (max (hi - li) (max |hi - pc| |li - pc|)) := by
  intro i
  induction i with
  | zero =>
    intro h l c prev hi li pc hh hl hc hlen
    cases h with
    | nil => simp at hh
    | cons x hs =>
      cases l with
      | nil => simp at hl
      | cons y ls =>
        cases c with
        | nil => simp at hc
        | cons z cs =>
          simp only [List.getElem?_cons_succ, List.getElem?_cons_zero,
            Option.some_inj] at hh hl hc
          subst hc
          cases hs with
          | nil => simp at hh
          | cons x2 hs2 =>
            cases ls with
            | nil => simp at hl
            | cons y2 ls2 =>
              cases cs with
              | nil => simp at hlen
              | cons z2 cs2 =>
                simp only [List.getElem?_cons_zero, Option.some_inj] at hh hl
                subst hh
                subst hl
                simp [trGo]
  | succ j ih =>
    intro h l c prev hi li pc hh hl hc hlen
    cases h with
    | nil => simp at hh
    | cons x hs =>
      cases l with
      | nil => simp at hl
      | cons y ls =>
        cases c with
        | nil => simp at hc
        | cons z cs =>
          simp only [List.getElem?_cons_succ] at hh hl hc
          have hlen2 : j + 1 < cs.length := by
            simp only [List.length_cons] at hlen
            omega
          simp only [trGo, List.getElem?_cons_succ]
          exact ih hs ls cs (some z) hi li pc hh hl hc hlen2

/-- C9 counterexample: on the single malformed bar with high 0 and low 1
(high below low), the first True Range output is `0 - 1`, which is
negative — refuting the claim that every output element is ≥ 0 on every
triple of equal-length series. -/
theorem C9_true_range_counterexample :
    true_range [0] [1] [0] = [0 - 1] ∧ ((0 : ℚ) - 1) < 0 := by
  constructor
  · rfl
  · norm_num

/-- C9 (amended): for every triple of equal-length high/low/close
series, the output has the same length as the input, the output at index
0 equals `high[0] - low[0]`, the output at each index `i ≥ 1` equals
`max (high-low) (max |high-prevClose| |low-prevClose|)`, every output
element at index `i ≥ 1` is ≥ 0, and the element at index 0 is ≥ 0
whenever `high[0] ≥ low[0]` (it is negative on a malformed first bar). -/
theorem C9_true_range_amended (h l c : List ℚ)
    (hh : h.length = c.length) (hl : l.length = c.length) :
    (true_range h l c).length = c.length ∧
    (∀ x y, h[0]? = some x → l[0]? = some y →
      (true_range h l c)[0]? = some (x - y)) ∧
    (∀ i hi li pc, 0 < i → i < c.length → h[i]? = some hi → l[i]? = some li →
      (c)[i-1]? = some pc →
      (true_range h l c)[i]? = some (max (hi - li) (max |hi - pc| |li - pc|))) ∧
    (∀ i t, 0 < i → (true_range h l c)[i]? = some t → 0 ≤ t) ∧
    (∀ x y t, h[0]? = some x → l[0]? = some y → y ≤ x →
      (true_range h l c)[0]? = some t → 0 ≤ t) := by
  refine ⟨?_, ?_, ?_, ?_, ?_⟩
  · rw [true_range, trGo_length, hh, hl]
    omega
  · intro x y hx hy
    cases h with
    | nil => simp at hx
    | cons x0 hs =>
      cases l with
      | nil => simp at hy
      | cons y0 ls =>
        cases c with
        | nil => simp at hh
        | cons z0 cs =>
          simp only [List.getElem?_cons_zero, Option.some_inj] at hx hy
          subst hx
          subst hy
          simp [true_range, trGo]
  · intro i hi li pc hpos hilen hhi hli hpc
    obtain ⟨j, rfl⟩ : ∃ j, i = j + 1 := ⟨i - 1, by omega⟩
    have : j + 1 - 1 = j := by omega
    rw [this] at hpc
    exact trGo_get_succ j h l c none hi li pc hhi hli hpc hilen
  · intro i t hpos ht
    obtain ⟨j, rfl⟩ : ∃ j, i = j + 1 := ⟨i - 1, by omega⟩
    cases h with
    | nil => simp [true_range, trGo] at ht
    | cons x hs =>
      cases l with
      | nil => simp [true_range, trGo] at ht
      | cons y ls =>
        cases c with
        | nil => simp [true_range, trGo] at ht
        | cons z cs =>
          simp only [true_range, trGo, List.getElem?_cons_succ] at ht
          exact trGo_nonneg_some j hs ls cs z t ht
  · intro x y t hx hy hxy ht
    cases h with
    | nil => simp at hx
    | cons x0 hs =>
      cases l with
      | nil => simp at hy
      | cons y0 ls =>
        cases c with
        | nil => simp at hh
        | cons z0 cs =>
          simp only [List.getElem?_cons_zero, Option.some_inj] at hx hy
          subst hx
          subst hy
          simp only [true_range, trGo, List.getElem?_cons_zero,
            Option.some_inj] at ht
          subst ht
          linarith

/-- Witness for C9 (amended) at a concrete two-bar series. -/
theorem C9_true_range_amended_witness :
    (true_range [2, 3] [1, 1] [2, 2]).length = ([2, 2] : List ℚ).length ∧
      (true_range [2, 3] [1, 1] [2, 2])[0]? = some (2 - 1) ∧
      (true_range [2, 3] [1, 1] [2, 2])[1]? =
        some (max ((3 : ℚ) - 1) (max |3 - 2| |1 - 2|)) ∧
      (0 : ℚ) ≤ max ((3 : ℚ) - 1) (max |3 - 2| |1 - 2|) ∧
      (0 : ℚ) ≤ 2 - 1 := by
  obtain ⟨w1, w2, w3, w4, w5⟩ := C9_true_range_amended [2, 3] [1, 1] [2, 2] rfl rfl
  have h0 := w2 2 1 rfl rfl
  have h1 := w3 1 3 1 2 (by norm_num) (by norm_num) rfl rfl rfl
  exact ⟨w1, h0, h1, w4 1 _ (by norm_num) h1, w5 2 1 (2 - 1) rfl rfl (by norm_num) h0⟩

/-! ### Claim C3 -/

/-- C3: on any series of at least 25 bars whose final close exceeds the
20-bar swing high (the quantity `recent_swings` computes, which the code
itself calls the "previous swing high"), a body-to-range ratio of 0.8
(at or above the 0.6 threshold) makes bullish BOS true; a ratio of 0.3
makes it false; and on fewer than 25 bars it is false regardless. -/
theorem C3_bullish_bos_scenario :
    (∀ o h l c lo lh ll lc shi slo,
      recent_swings h l 20 = some (shi, slo) →
      o.getLast? = some lo → h.getLast? = some lh →
      l.getLast? = some ll → c.getLast? = some lc →
      shi < lc → 25 ≤ c.length →
      |lc - lo| / max (1/1000000000) (lh - ll) = 8/10 →
      bullish_bos o h l c = some true) ∧
    (∀ o h l c lo lh ll lc shi slo,
      recent_swings h l 20 = some (shi, slo) →
      o.getLast? = some lo → h.getLast? = some lh →
      l.getLast? = some ll → c.getLast? = some lc →
      shi < lc → 25 ≤ c.length →
      |lc - lo| / max (1/1000000000) (lh - ll) = 3/10 →
      bullish_bos o h l c = some false) ∧
    (∀ o h l c, c.length < 25 → bullish_bos o h l c = some false) := by
  refine ⟨?_, ?_, ?_⟩
  · intro o h l c lo lh ll lc shi slo hsw ho hh hl hc hbreak hlen hratio
    rw [bullish_bos_eval o h l c lo lh ll lc shi slo (not_lt.mpr hlen) hsw ho hh hl hc]
    have ht : decide (|lc - lo| / max (1/1000000000) (lh - ll) ≥ 6/10) = true := by
      rw [hratio]
      exact decide_eq_true (by norm_num)
    rw [ht, decide_eq_true hbreak, Bool.and_self]
  · intro o h l c lo lh ll lc shi slo hsw ho hh hl hc hbreak hlen hratio
    rw [bullish_bos_eval o h l c lo lh ll lc shi slo (not_lt.mpr hlen) hsw ho hh hl hc]
    have hf : decide (|lc - lo| / max (1/1000000000) (lh - ll) ≥ 6/10) = false := by
      rw [hratio]
      exact decide_eq_false (by norm_num)
    rw [hf, Bool.and_false]
  · intro o h l c hlen
    simp [bullish_bos, hlen]

/-- Witness for C3 on concrete 25-bar series (ratios 0.8 and 0.3) and a
concrete short series. -/
theorem C3_bullish_bos_scenario_witness :
    bullish_bos (List.replicate 24 1 ++ [12]) (List.replicate 24 5 ++ [10])
        (List.replicate 25 0) (List.replicate 24 1 ++ [20]) = some true ∧
      bullish_bos (List.replicate 24 1 ++ [12]) (List.replicate 24 5 ++ [10])
        (List.replicate 25 0) (List.replicate 24 1 ++ [15]) = some false ∧
      bullish_bos [] [] [] [] = some false := by
  have hsw : recent_swings (List.replicate 24 (5 : ℚ) ++ [10])
      (List.replicate 25 (0 : ℚ)) 20 = some (10, 0) := by
    have t1 : pyTail (List.replicate 24 (5 : ℚ) ++ [10]) 20 =
        List.replicate 19 5 ++ [10] := by
      rw [pyTail_eq_drop _ _ (by omega)]
      simp only [List.length_append, List.length_replicate, List.length_cons,
        List.length_nil]
      rw [show (24 + (0 + 1)) - 20 = 5 by omega,
        List.drop_append_of_le_length (by simp), List.drop_replicate]
    have t2 : pyTail (List.replicate 25 (0 : ℚ)) 20 = List.replicate 20 0 := by
      rw [pyTail_eq_drop _ _ (by omega), List.length_replicate, List.drop_replicate]
    unfold recent_swings
    rw [t1, t2, pyMin_replicate _ _ (by omega)]
    rw [pyMax_eq_of (List.replicate 19 (5 : ℚ) ++ [10]) 10
      (List.mem_append_right _ (List.mem_singleton.mpr rfl))
      (by
        intro a ha
        rcases List.mem_append.mp ha with hmem | hmem
        · rw [List.eq_of_mem_replicate hmem]; norm_num
        · rw [List.mem_singleton.mp hmem])]
  have hlen : 25 ≤ (List.replicate 24 (1 : ℚ) ++ [20]).length := by simp
  have hlen2 : 25 ≤ (List.replicate 24 (1 : ℚ) ++ [15]).length := by simp
  have hgo : (List.replicate 24 (1 : ℚ) ++ [12]).getLast? = some 12 :=
    List.getLast?_concat _
  have hgh : (List.replicate 24 (5 : ℚ) ++ [10]).getLast? = some 10 :=
    List.getLast?_concat _
  have hgl : (List.replicate 25 (0 : ℚ)).getLast? = some 0 :=
    getLast?_replicate _ _ (by omega)
  have hmx : max ((1 : ℚ)/1000000000) ((10 : ℚ) - 0) = 10 := by
    rw [max_eq_right (by norm_num : (1 : ℚ)/1000000000 ≤ 10 - 0)]
    norm_num
  refine ⟨?_, ?_, ?_⟩
  · apply C3_bullish_bos_scenario.1 _ _ _ _ 12 10 0 20 10 0 hsw hgo hgh hgl
      (List.getLast?_concat _) (by norm_num) hlen
    rw [hmx, abs_of_nonneg (by norm_num : (0 : ℚ) ≤ 20 - 12)]
    norm_num
  · apply C3_bullish_bos_scenario.2.1 _ _ _ _ 12 10 0 15 10 0 hsw hgo hgh hgl
      (List.getLast?_concat _) (by norm_num) hlen2
    rw [hmx, abs_of_nonneg (by norm_num : (0 : ℚ) ≤ 15 - 12)]
    norm_num
  · exact C3_bullish_bos_scenario.2.2 [] [] [] [] (by simp)

/-! ### Claim C6 -/

/-- C6: for every entry price > 0 and balance ≥ 0, `compute_qty` is
never negative, its notional (quantity times entry) never exceeds
`balance * LEVERAGE * MAX_NOTIONAL_BUF`, it is 0 when the stop distance
is 0 (entry equals stop), it is always an integer multiple of the 1e-5
rounding step, and in the uncapped case it equals the risk budget over
the stop distance floored to that step. -/
theorem C6_compute_qty_spec (entry sl bal : ℚ) (he : 0 < entry) (hb : 0 ≤ bal) :
    0 ≤ compute_qty entry sl bal ∧
    compute_qty entry sl bal * entry ≤ bal * LEVERAGE * MAX_NOTIONAL_BUF ∧
    (entry = sl → compute_qty entry sl bal = 0) ∧
    (∃ n : ℤ, 0 ≤ n ∧ compute_qty entry sl bal = (n : ℚ) / 100000) ∧
    (0 < |entry - sl| →
      RISK_USD / |entry - sl| * entry ≤ bal * LEVERAGE * MAX_NOTIONAL_BUF →
      compute_qty entry sl bal = (⌊RISK_USD / |entry - sl| * 100000⌋ : ℚ) / 100000) := by
  have hmn : 0 ≤ bal * LEVERAGE * MAX_NOTIONAL_BUF := by
    unfold LEVERAGE MAX_NOTIONAL_BUF
    positivity
  by_cases hd : |entry - sl| ≤ 0
  · have h0 : compute_qty entry sl bal = 0 := by
      simp only [compute_qty]
      rw [if_pos hd]
    refine ⟨by rw [h0], by rw [h0, zero_mul]; exact hmn, fun _ => h0,
      ⟨0, le_refl 0, by rw [h0]; norm_num⟩, fun hpos _ => absurd hd (not_le.mpr hpos)⟩
  · have hdist : 0 < |entry - sl| := lt_of_not_le hd
    have hq : 0 < RISK_USD / |entry - sl| := by
      apply div_pos _ hdist
      unfold RISK_USD
      norm_num
    -- the quantity after the notional cap
    set q2 : ℚ := if bal * LEVERAGE * MAX_NOTIONAL_BUF < RISK_USD / |entry - sl| * entry
      then bal * LEVERAGE * MAX_NOTIONAL_BUF / entry
      else RISK_USD / |entry - sl| with hq2def
    have heval : compute_qty entry sl bal = max 0 ((⌊q2 * 100000⌋ : ℚ) / 100000) := by
      simp only [compute_qty]
      rw [if_neg hd]
    have hq2nn : 0 ≤ q2 := by
      rw [hq2def]
      split
      · exact div_nonneg hmn he.le
      · exact hq.le
    have hq2cap : q2 * entry ≤ bal * LEVERAGE * MAX_NOTIONAL_BUF := by
      rw [hq2def]
      split
      · rw [div_mul_cancel₀ _ (ne_of_gt he)]
      · exact not_lt.mp (by assumption)
    have hfl : 0 ≤ ⌊q2 * 100000⌋ := Int.floor_nonneg.mpr (by positivity)
    have hres : compute_qty entry sl bal = (⌊q2 * 100000⌋ : ℚ) / 100000 := by
      rw [heval, max_eq_right]
      positivity
    have hle : (⌊q2 * 100000⌋ : ℚ) / 100000 ≤ q2 := by
      rw [div_le_iff₀ (by norm_num : (0 : ℚ) < 100000)]
      exact Int.floor_le _
    refine ⟨?_, ?_, ?_, ?_, ?_⟩
    · rw [hres]; positivity
    · rw [hres]
      calc (⌊q2 * 100000⌋ : ℚ) / 100000 * entry ≤ q2 * entry :=
          mul_le_mul_of_nonneg_right hle he.le
      _ ≤ bal * LEVERAGE * MAX_NOTIONAL_BUF := hq2cap
    · intro heq
      rw [heq, sub_self, abs_zero] at hdist
      exact absurd hdist (lt_irrefl 0)
    · exact ⟨⌊q2 * 100000⌋, hfl, hres⟩
    · intro _ hnocap
      have : q2 = RISK_USD / |entry - sl| := by
        rw [hq2def, if_neg (not_lt.mpr hnocap)]
      rw [hres, this]

/-- Witness for C6 at Scenario B (entry 100, stop 99, balance 10). -/
theorem C6_compute_qty_spec_witness :
    0 ≤ compute_qty 100 99 10 ∧
      compute_qty 100 99 10 * 100 ≤ 10 * LEVERAGE * MAX_NOTIONAL_BUF ∧
      ((100 : ℚ) = 99 → compute_qty 100 99 10 = 0) ∧
      (∃ n : ℤ, 0 ≤ n ∧ compute_qty 100 99 10 = (n : ℚ) / 100000) ∧
      (0 < |(100 : ℚ) - 99| →
        RISK_USD / |(100 : ℚ) - 99| * 100 ≤ 10 * LEVERAGE * MAX_NOTIONAL_BUF →
        compute_qty 100 99 10 = (⌊RISK_USD / |(100 : ℚ) - 99| * 100000⌋ : ℚ) / 100000) :=
  C6_compute_qty_spec 100 99 10 (by norm_num) (by norm_num)

/-! ### Claim C7 -/

/-- C7: `ensure_min_tp` returns the target unchanged when the quantity
is 0 or when the projected profit `|tp - entry| * qty` already meets the
minimum floor; when the projected profit is below the floor and the
quantity is positive, the returned target yields projected profit
exactly equal to the floor and lies further from entry in the direction
of profit (above entry for a buy, below for a sell). -/
theorem C7_ensure_min_tp_spec (entry tp qty : ℚ) (side : Side) :
    (qty = 0 → ensure_min_tp entry tp qty side = tp) ∧
    (0 < qty → MIN_TP_USD ≤ |tp - entry| * qty →
      ensure_min_tp entry tp qty side = tp) ∧
    (0 < qty → |tp - entry| * qty < MIN_TP_USD →
      |ensure_min_tp entry tp qty side - entry| * qty = MIN_TP_USD ∧
      (side = Side.buy → entry < ensure_min_tp entry tp qty side) ∧
      (side = Side.sell → ensure_min_tp entry tp qty side < entry)) := by
  refine ⟨?_, ?_, ?_⟩
  · intro h0
    simp [ensure_min_tp, h0]
  · intro hq hge
    simp [ensure_min_tp, not_le.mpr hq, hge]
  · intro hq hlt
    have h1 : ¬ qty ≤ 0 := not_le.mpr hq
    have h2 : ¬ MIN_TP_USD ≤ |tp - entry| * qty := not_le.mpr hlt
    have hneed : 0 < MIN_TP_USD / qty := by
      apply div_pos _ hq
      unfold MIN_TP_USD
      norm_num
    cases side with
    | buy =>
      have hr : ensure_min_tp entry tp qty Side.buy = entry + MIN_TP_USD / qty := by
        simp [ensure_min_tp, h1, h2]
      refine ⟨?_, fun _ => by rw [hr]; linarith, fun hs => nomatch hs⟩
      rw [hr, add_sub_cancel_left, abs_of_pos hneed, div_mul_cancel₀ _ (ne_of_gt hq)]
    | sell =>
      have hr : ensure_min_tp entry tp qty Side.sell = entry - MIN_TP_USD / qty := by
        simp [ensure_min_tp, h1, h2]
      refine ⟨?_, ?_, ?_⟩
      · rw [hr, sub_sub_cancel_left, abs_neg, abs_of_pos hneed,
          div_mul_cancel₀ _ (ne_of_gt hq)]
      · intro hs
        exact nomatch hs
      · intro _
        rw [hr]
        linarith

/-- Witness for C7 at Scenario C (entry 100, target 102, quantity 0.01,
buy side): projected profit 0.02 is below the one-dollar floor, so the
enforced target satisfies the floor exactly and sits above entry. -/
theorem C7_ensure_min_tp_spec_witness :
    |ensure_min_tp 100 102 (1/100) Side.buy - 100| * (1/100) = MIN_TP_USD ∧
      (100 : ℚ) < ensure_min_tp 100 102 (1/100) Side.buy ∧
      ensure_min_tp 100 102 (1/100) Side.buy = 200 := by
  have hlt : |(102 : ℚ) - 100| * (1/100) < MIN_TP_USD := by
    rw [abs_of_nonneg (by norm_num : (0 : ℚ) ≤ 102 - 100)]
    unfold MIN_TP_USD
    norm_num
  obtain ⟨w1, w2, _⟩ :=
    (C7_ensure_min_tp_spec 100 102 (1/100) Side.buy).2.2 (by norm_num) hlt
  refine ⟨w1, w2 rfl, ?_⟩
  have h1 : ¬ ((1 : ℚ)/100) ≤ 0 := by norm_num
  have h2 : ¬ MIN_TP_USD ≤ |(102 : ℚ) - 100| * (1/100) := not_le.mpr hlt
  simp only [ensure_min_tp, h1, h2, if_false]
  unfold MIN_TP_USD
  norm_num

/-! ### Claim C8 -/

lemma emaScan_length (k : ℚ) : ∀ (vs : List ℚ) (prev : ℚ),
    (emaScan k prev vs).length = vs.length := by
  intro vs
  induction vs with
  | nil => intro prev; rfl
  | cons w ws ih =>
    intro prev
    simp [emaScan, ih]

lemma emaScan_const (k v : ℚ) : ∀ m : ℕ,
    emaScan k v (List.replicate m v) = List.replicate m v := by
  intro m
  induction m with
  | zero => rfl
  | succ n ih =>
    have he : (v - v) * k + v = v := by ring
    calc emaScan k v (List.replicate (n+1) v)
        = ((v - v) * k + v) :: emaScan k ((v - v) * k + v) (List.replicate n v) := by
          rw [List.replicate_succ]
          simp only [emaScan]
    _ = v :: emaScan k v (List.replicate n v) := by rw [he]
    _ = v :: List.replicate n v := by rw [ih]
    _ = List.replicate (n+1) v := (List.replicate_succ v n).symm

lemma emaScan_rec (k : ℚ) : ∀ (vs : List ℚ) (prev : ℚ) (m : ℕ) (v p : ℚ),
    vs[m]? = some v → (prev :: emaScan k prev vs)[m]? = some p →
    (emaScan k prev vs)[m]? = some ((v - p) * k + p) := by
  intro vs
  induction vs with
  | nil =>
    intro prev m v p hv _
    simp at hv
  | cons w ws ih =>
    intro prev m v p hv hp
    cases m with
    | zero =>
      simp only [List.getElem?_cons_zero, Option.some_inj] at hv hp
      subst hv
      subst hp
      simp only [emaScan, List.getElem?_cons_zero]
    | succ m2 =>
      simp only [List.getElem?_cons_succ] at hv hp
      simp only [emaScan] at hp ⊢
      rw [List.getElem?_cons_succ]
      exact ih ((w - prev) * k + prev) m2 v p hv hp

lemma ema_list_short (vals : List ℚ) (period : ℕ) (h : vals.length < period) :
    ema_list vals period = [] := by
  unfold ema_list
  rw [if_pos h]

lemma ema_list_body (vals : List ℚ) (period : ℕ) (h2 : period ≤ vals.length) :
    ema_list vals period =
      List.replicate (period - 1) none ++
        (some ((vals.take period).sum / period) ::
          (emaScan (2 / (period + 1)) ((vals.take period).sum / period)
            (vals.drop period)).map some) := by
  unfold ema_list
  rw [if_neg (not_lt.mpr h2)]

lemma ema_list_length (vals : List ℚ) (period : ℕ) (h1 : 1 ≤ period)
    (h2 : period ≤ vals.length) :
    (ema_list vals period).length = vals.length := by
  rw [ema_list_body vals period h2]
  simp only [List.length_append, List.length_replicate, List.length_cons,
    List.length_map, emaScan_length, List.length_drop]
  omega

lemma ema_list_warmup (vals : List ℚ) (period i : ℕ) (h2 : period ≤ vals.length)
    (hi : i < period - 1) :
    (ema_list vals period)[i]? = some none := by
  rw [ema_list_body vals period h2, List.getElem?_append,
    if_pos (by rw [List.length_replicate]; exact hi), List.getElem?_replicate,
    if_pos hi]

lemma ema_list_seed (vals : List ℚ) (period : ℕ) (h2 : period ≤ vals.length) :
    (ema_list vals period)[period - 1]? =
      some (some ((vals.take period).sum / period)) := by
  rw [ema_list_body vals period h2, List.getElem?_append,
    if_neg (by rw [List.length_replicate]; omega), List.length_replicate,
    Nat.sub_self, List.getElem?_cons_zero]

lemma ema_list_rec (vals : List ℚ) (period i : ℕ) (v prev : ℚ) (h1 : 1 ≤ period)
    (hpi : period ≤ i) (hlen : i < vals.length) (hv : vals[i]? = some v)
    (hprev : (ema_list vals period)[i - 1]? = some (some prev)) :
    (ema_list vals period)[i]? =
      some (some (v * (2/(period+1)) + prev * (1 - 2/(period+1)))) := by
  have h2 : period ≤ vals.length := le_trans hpi (le_of_lt hlen)
  have hbody := ema_list_body vals period h2
  -- positions inside the appended tail
  have hidx : ∀ j : ℕ, period - 1 ≤ j →
      (ema_list vals period)[j]? =
        (some ((vals.take period).sum / period) ::
          (emaScan (2 / (period + 1)) ((vals.take period).sum / period)
            (vals.drop period)).map some)[j - (period - 1)]? := by
    intro j hj
    rw [hbody, List.getElem?_append, if_neg (by rw [List.length_replicate]; omega),
      List.length_replicate]
  have hm : i - (period - 1) = (i - period) + 1 := by omega
  have hm2 : i - 1 - (period - 1) = i - period := by omega
  have hv2 : (vals.drop period)[i - period]? = some v := by
    rw [List.getElem?_drop]
    rw [show period + (i - period) = i by omega]
    exact hv
  rw [hidx (i - 1) (by omega), hm2] at hprev
  -- the tail list is the `map some` image of the plain scan list with its seed
  have hcons : (some ((vals.take period).sum / period) ::
        (emaScan (2 / (period + 1)) ((vals.take period).sum / period)
          (vals.drop period)).map some) =
      (((vals.take period).sum / period) ::
        emaScan (2 / (period + 1)) ((vals.take period).sum / period)
          (vals.drop period)).map some := by
    rw [List.map_cons]
  rw [hcons, List.getElem?_map] at hprev
  have hprev2 : (((vals.take period).sum / period) ::
      emaScan (2 / (period + 1)) ((vals.take period).sum / period)
        (vals.drop period))[i - period]? = some prev := by
    cases hx : (((vals.take period).sum / period) ::
        emaScan (2 / (period + 1)) ((vals.take period).sum / period)
          (vals.drop period))[i - period]? with
    | none =>
      rw [hx, Option.map_none'] at hprev
      exact nomatch hprev
    | some w =>
      rw [hx, Option.map_some'] at hprev
      exact Option.some_inj.mp hprev
  have hscan := emaScan_rec (2 / (period + 1)) (vals.drop period)
    ((vals.take period).sum / period) (i - period) v prev hv2 hprev2
  rw [hidx i (by omega), hm, List.getElem?_cons_succ, List.getElem?_map, hscan]
  have : (v - prev) * (2 / (period + 1)) + prev =
      v * (2/(period+1)) + prev * (1 - 2/(period+1)) := by ring
  rw [this]
  rfl

lemma ema_list_const (v : ℚ) (n period : ℕ) (h1 : 1 ≤ period) (h2 : period ≤ n) :
    ∀ i, period - 1 ≤ i → i < n →
      (ema_list (List.replicate n v) period)[i]? = some (some v) := by
  have hsma : ((List.replicate n v).take period).sum / (period : ℚ) = v := by
    rw [List.take_replicate, min_eq_left h2, List.sum_replicate, nsmul_eq_mul,
      mul_div_cancel_left₀ v (by exact_mod_cast Nat.pos_iff_ne_zero.mp (by omega))]
  have hdrop : (List.replicate n v).drop period = List.replicate (n - period) v :=
    List.drop_replicate v period n
  intro i hi1 hi2
  rw [ema_list_body (List.replicate n v) period (by rw [List.length_replicate]; exact h2)]
  rw [hsma, hdrop, emaScan_const, List.map_replicate]
  rw [List.getElem?_append, if_neg (by rw [List.length_replicate]; omega),
    List.length_replicate]
  rw [show some v :: List.replicate (n - period) (some v) =
    List.replicate (n - period + 1) (some v) from (List.replicate_succ _ _).symm]
  rw [List.getElem?_replicate, if_pos (by omega)]

/-- C8: `ema_list` returns an empty series on inputs shorter than the
period; otherwise the output has the length of the input, its first
`period - 1` entries are the `None` warm-up markers, the entry at index
`period - 1` is the simple average of the first `period` values, each
subsequent entry obeys `value*k + previous*(1-k)` with `k = 2/(period+1)`,
and on a constant series of value `v` every post-warm-up entry is `v`. -/
theorem C8_ema_list_spec :
    (∀ (vals : List ℚ) (period : ℕ), vals.length < period →
      ema_list vals period = []) ∧
    (∀ (vals : List ℚ) (period : ℕ), 1 ≤ period → period ≤ vals.length →
      (ema_list vals period).length = vals.length) ∧
    (∀ (vals : List ℚ) (period i : ℕ), period ≤ vals.length → i < period - 1 →
      (ema_list vals period)[i]? = some none) ∧
    (∀ (vals : List ℚ) (period : ℕ), period ≤ vals.length →
      (ema_list vals period)[period - 1]? =
        some (some ((vals.take period).sum / period))) ∧
    (∀ (vals : List ℚ) (period i : ℕ) (v prev : ℚ), 1 ≤ period → period ≤ i →
      i < vals.length → vals[i]? = some v →
      (ema_list vals period)[i - 1]? = some (some prev) →
      (ema_list vals period)[i]? =
        some (some (v * (2/(period+1)) + prev * (1 - 2/(period+1))))) ∧
    (∀ (v : ℚ) (n period i : ℕ), 1 ≤ period → period ≤ n → period - 1 ≤ i →
      i < n → (ema_list (List.replicate n v) period)[i]? = some (some v)) :=
  ⟨ema_list_short,
    fun vals period h1 h2 => ema_list_length vals period h1 h2,
    fun vals period i h2 hi => ema_list_warmup vals period i h2 hi,
    fun vals period h2 => ema_list_seed vals period h2,
    fun vals period i v prev h1 hpi hlen hv hprev =>
      ema_list_rec vals period i v prev h1 hpi hlen hv hprev,
    fun v n period i h1 h2 hi1 hi2 => ema_list_const v n period h1 h2 i hi1 hi2⟩

/-- Witness for C8 on the concrete series `[1, 2, 3]` with period 2 and
the constant series of five 7s with period 3. -/
theorem C8_ema_list_spec_witness :
    ema_list [1] 2 = [] ∧
      (ema_list [1, 2, 3] 2).length = ([1, 2, 3] : List ℚ).length ∧
      (ema_list [1, 2, 3] 2)[0]? = some none ∧
      (ema_list [1, 2, 3] 2)[1]? =
        some (some ((([1, 2, 3] : List ℚ).take 2).sum / 2)) ∧
      (ema_list [1, 2, 3] 2)[2]? =
        some (some (3 * (2/(2+1)) +
          ((([1, 2, 3] : List ℚ).take 2).sum / 2) * (1 - 2/(2+1)))) ∧
      (ema_list (List.replicate 5 7) 3)[4]? = some (some 7) := by
  obtain ⟨w1, w2, w3, w4, w5, w6⟩ := C8_ema_list_spec
  have hseed := w4 [1, 2, 3] 2 (by norm_num)
  refine ⟨w1 [1] 2 (by norm_num), w2 [1, 2, 3] 2 (by norm_num) (by norm_num),
    w3 [1, 2, 3] 2 0 (by norm_num) (by norm_num), hseed, ?_, ?_⟩
  · exact w5 [1, 2, 3] 2 2 3 _ (by norm_num) (by norm_num) (by norm_num) rfl hseed
  · exact w6 7 5 3 4 (by norm_num) (by norm_num) (by norm_num) (by norm_num)

/-! ### Claim C5 -/

/-- C5 counterexample: on the flat series of 300 closes equal to 100,
the per-timeframe direction is NOT undefined: `tf_ema_dir` returns
"bear" (the code's `else` branch fires when the fast EMA is not
strictly above the slow EMA), which agrees with a bear master trend. -/
theorem C5_flat_series_counterexample :
    tf_ema_dir (List.replicate 300 100) 9 20 ≠ none ∧
      tf_ema_dir (List.replicate 300 100) 9 20 = some Dir.bear := by
  have e9 : (ema_list (List.replicate 300 (100 : ℚ)) 9).getLast? = some (some 100) := by
    rw [List.getLast?_eq_getElem?,
      ema_list_length _ _ (by norm_num) (by rw [List.length_replicate]; norm_num),
      List.length_replicate]
    exact ema_list_const 100 300 9 (by norm_num) (by norm_num) 299
      (by norm_num) (by norm_num)
  have e20 : (ema_list (List.replicate 300 (100 : ℚ)) 20).getLast? = some (some 100) := by
    rw [List.getLast?_eq_getElem?,
      ema_list_length _ _ (by norm_num) (by rw [List.length_replicate]; norm_num),
      List.length_replicate]
    exact ema_list_const 100 300 20 (by norm_num) (by norm_num) 299
      (by norm_num) (by norm_num)
  have hdir : tf_ema_dir (List.replicate 300 100) 9 20 = some Dir.bear := by
    simp only [tf_ema_dir, e9, e20]
    rw [if_neg (lt_irrefl (100 : ℚ))]
  exact ⟨by rw [hdir]; exact Option.some_ne_none _, hdir⟩

/-- C5 (amended): on the flat series of 300 closes equal to 100, the
fast EMA(9) and slow EMA(20) both end at 100, and the per-timeframe
direction is "bear" (fast not strictly greater than slow), which counts
as agreement with a bear master trend and disagreement with a bull one. -/
theorem C5_flat_series_amended :
    (ema_list (List.replicate 300 (100 : ℚ)) 9).getLast? = some (some 100) ∧
      (ema_list (List.replicate 300 (100 : ℚ)) 20).getLast? = some (some 100) ∧
      tf_ema_dir (List.replicate 300 100) 9 20 = some Dir.bear ∧
      tf_ema_dir (List.replicate 300 100) 9 20 ≠ some Dir.bull := by
  have e9 : (ema_list (List.replicate 300 (100 : ℚ)) 9).getLast? = some (some 100) := by
    rw [List.getLast?_eq_getElem?,
      ema_list_length _ _ (by norm_num) (by rw [List.length_replicate]; norm_num),
      List.length_replicate]
    exact ema_list_const 100 300 9 (by norm_num) (by norm_num) 299
      (by norm_num) (by norm_num)
  have e20 : (ema_list (List.replicate 300 (100 : ℚ)) 20).getLast? = some (some 100) := by
    rw [List.getLast?_eq_getElem?,
      ema_list_length _ _ (by norm_num) (by rw [List.length_replicate]; norm_num),
      List.length_replicate]
    exact ema_list_const 100 300 20 (by norm_num) (by norm_num) 299
      (by norm_num) (by norm_num)
  have hdir : tf_ema_dir (List.replicate 300 100) 9 20 = some Dir.bear := by
    simp only [tf_ema_dir, e9, e20]
    rw [if_neg (lt_irrefl (100 : ℚ))]
  refine ⟨e9, e20, hdir, ?_⟩
  rw [hdir]
  intro hcontra
  simp at hcontra

end DeltaBot
